import Mathlib

/-!
Shallow embedding of the per-tick simulation core of a small 2D survival
game (one Rust source file built on bevy).  Machine `f32` arithmetic is
modelled over `ℝ`, the `u32` counters over `ℕ`, and the process-wide
random source is passed in explicitly as the raw samples it would
produce.  Each definition mirrors the function of the same name in the
source file.
-/

open Classical

namespace Swarm

/-- 2D vector (the `Vec2` of the source, over `ℝ`). -/
structure Vec2 where
  x : ℝ
  y : ℝ

/-- The `Vec2::ZERO` constant. -/
def Vec2.zero : Vec2 := ⟨0, 0⟩

instance : Add Vec2 := ⟨fun a b => ⟨a.x + b.x, a.y + b.y⟩⟩

instance : Sub Vec2 := ⟨fun a b => ⟨a.x - b.x, a.y - b.y⟩⟩

instance : Neg Vec2 := ⟨fun a => ⟨-a.x, -a.y⟩⟩

instance : SMul ℝ Vec2 := ⟨fun c v => ⟨c * v.x, c * v.y⟩⟩

@[simp] theorem Vec2.add_def (a b : Vec2) : a + b = ⟨a.x + b.x, a.y + b.y⟩ := rfl

@[simp] theorem Vec2.sub_def (a b : Vec2) : a - b = ⟨a.x - b.x, a.y - b.y⟩ := rfl

@[simp] theorem Vec2.neg_def (a : Vec2) : -a = ⟨-a.x, -a.y⟩ := rfl

@[simp] theorem Vec2.smul_def (c : ℝ) (v : Vec2) : c • v = ⟨c * v.x, c * v.y⟩ := rfl

@[simp] theorem Vec2.zero_def : Vec2.zero = ⟨0, 0⟩ := rfl

/-- Squared length, as `Vec2::length_squared`. -/
def Vec2.length_squared (v : Vec2) : ℝ := v.x * v.x + v.y * v.y

/-- Length, as `Vec2::length`. -/
noncomputable def Vec2.length (v : Vec2) : ℝ := Real.sqrt v.length_squared

/-- `Vec2::normalize_or_zero`: the unit vector in the direction of `v`,
or zero when `v` is zero (over `ℝ` the reciprocal length is finite and
positive exactly when `v ≠ 0`). -/
noncomputable def Vec2.normalize_or_zero (v : Vec2) : Vec2 :=
  if v = Vec2.zero then Vec2.zero else (1 / v.length) • v

theorem Vec2.length_squared_nonneg (v : Vec2) : 0 ≤ v.length_squared :=
  add_nonneg (mul_self_nonneg _) (mul_self_nonneg _)

theorem Vec2.length_squared_eq_zero (v : Vec2) :
    v.length_squared = 0 ↔ v = Vec2.zero := by
  cases v with
  | mk x y =>
    simp only [Vec2.length_squared, Vec2.zero_def, Vec2.mk.injEq]
    constructor
    · intro h
      constructor
      · nlinarith [mul_self_nonneg x, mul_self_nonneg y]
      · nlinarith [mul_self_nonneg x, mul_self_nonneg y]
    · rintro ⟨hx, hy⟩
      rw [hx, hy]
      ring

theorem Vec2.length_squared_pos (v : Vec2) (h : v ≠ Vec2.zero) :
    0 < v.length_squared := by
  rcases lt_or_eq_of_le (Vec2.length_squared_nonneg v) with h' | h'
  · exact h'
  · exact absurd ((Vec2.length_squared_eq_zero v).mp h'.symm) h

theorem Vec2.length_pos (v : Vec2) (h : v ≠ Vec2.zero) : 0 < v.length :=
  Real.sqrt_pos.mpr (Vec2.length_squared_pos v h)

theorem Vec2.length_zero : Vec2.zero.length = 0 := by
  simp [Vec2.length, Vec2.length_squared]

theorem Vec2.length_smul (c : ℝ) (v : Vec2) :
    (c • v).length = |c| * v.length := by
  cases v with
  | mk x y =>
    simp only [Vec2.smul_def, Vec2.length, Vec2.length_squared]
    rw [show c * x * (c * x) + c * y * (c * y) = c ^ 2 * (x * x + y * y) by ring,
      Real.sqrt_mul (sq_nonneg c), Real.sqrt_sq_eq_abs]

theorem Vec2.normalize_or_zero_eq_zero (v : Vec2) :
    v.normalize_or_zero = Vec2.zero ↔ v = Vec2.zero := by
  constructor
  · intro h
    by_contra hv
    rw [Vec2.normalize_or_zero, if_neg hv] at h
    cases v with
    | mk x y =>
      have hl : 0 < Vec2.length ⟨x, y⟩ := Vec2.length_pos _ hv
      simp only [Vec2.smul_def, Vec2.zero_def, Vec2.mk.injEq] at h
      have hx : x = 0 := by
        have := h.1
        field_simp at this
        tauto
      have hy : y = 0 := by
        have := h.2
        field_simp at this
        tauto
      exact hv (by simp [hx, hy])
  · intro h
    rw [h, Vec2.normalize_or_zero, if_pos rfl]

theorem Vec2.normalize_or_zero_length (v : Vec2) (h : v ≠ Vec2.zero) :
    v.normalize_or_zero.length = 1 := by
  rw [Vec2.normalize_or_zero, if_neg h, Vec2.length_smul]
  have hl : 0 < v.length := Vec2.length_pos v h
  rw [abs_of_pos (by positivity)]
  field_simp

theorem Vec2.length_squared_neg (v : Vec2) :
    (-v).length_squared = v.length_squared := by
  cases v with
  | mk x y =>
    simp only [Vec2.neg_def, Vec2.length_squared]
    ring

theorem Vec2.length_neg (v : Vec2) : (-v).length = v.length := by
  unfold Vec2.length
  rw [Vec2.length_squared_neg]

theorem Vec2.smul_neg_vec (c : ℝ) (v : Vec2) : c • (-v) = -(c • v) := by
  cases v with
  | mk x y => simp

theorem Vec2.neg_zero_vec : -Vec2.zero = Vec2.zero := by
  simp

theorem Vec2.neg_neg_vec (v : Vec2) : -(-v) = v := by
  cases v with
  | mk x y => simp

theorem Vec2.normalize_or_zero_neg (v : Vec2) :
    (-v).normalize_or_zero = -(v.normalize_or_zero) := by
  have hz : Vec2.zero.normalize_or_zero = Vec2.zero :=
    (Vec2.normalize_or_zero_eq_zero _).mpr rfl
  by_cases h : v = Vec2.zero
  · rw [h, Vec2.neg_zero_vec, hz, Vec2.neg_zero_vec]
  · have hn : -v ≠ Vec2.zero := by
      intro hc
      apply h
      cases v with
      | mk x y =>
        simp only [Vec2.neg_def, Vec2.zero_def, Vec2.mk.injEq] at hc ⊢
        constructor <;> [linarith [hc.1]; linarith [hc.2]]
    rw [Vec2.normalize_or_zero, if_neg hn, Vec2.normalize_or_zero, if_neg h,
      Vec2.length_neg, Vec2.smul_neg_vec]

/-- Circle shape (`Circle` of the source: just a radius). -/
structure Circle where
  radius : ℝ

/-- `Circle::new`. -/
def Circle.new (radius : ℝ) : Circle := ⟨radius⟩

/-- `random_unit`: the source draws two samples from `rand::random::<f32>()`
(range `[0,1)`), maps each to `[-1,1)` and normalizes.  The two raw
samples are passed in explicitly here. -/
noncomputable def random_unit (r1 r2 : ℝ) : Vec2 :=
  Vec2.normalize_or_zero ⟨r1 * 2 - 1, r2 * 2 - 1⟩

/-- `collide_circles`: circle-vs-circle overlap test.  The two extra real
arguments are the raw random samples consumed in the degenerate
coincident-centers branch. -/
noncomputable def collide_circles (a b : Circle × Vec2) (r1 r2 : ℝ) :
    Bool × Vec2 :=
  let radius_sum := a.1.radius + b.1.radius
  let radius_sum_squared := radius_sum * radius_sum
  let difference := a.2 - b.2
  let distance_squared := difference.length_squared
  let overlap := radius_sum_squared - distance_squared
  if overlap ≤ 0 then
    (false, Vec2.zero)
  else if distance_squared = 0 then
    (true, Real.sqrt overlap • random_unit r1 r2)
  else
    (true, Real.sqrt overlap • difference.normalize_or_zero)

theorem Vec2.sub_self_eq_zero (a : Vec2) : a - a = Vec2.zero := by
  simp

theorem Vec2.sub_eq_zero_iff (a b : Vec2) : a - b = Vec2.zero ↔ a = b := by
  cases a with
  | mk ax ay =>
    cases b with
    | mk bx by' =>
      simp only [Vec2.sub_def, Vec2.zero_def, Vec2.mk.injEq]
      constructor
      · rintro ⟨h1, h2⟩
        exact ⟨by linarith, by linarith⟩
      · rintro ⟨h1, h2⟩
        exact ⟨by linarith, by linarith⟩

/-- The collision flag of `collide_circles` is true exactly when the
squared center distance is below the squared radius sum; it does not
depend on the random samples. -/
theorem collide_circles_fst_iff (a b : Circle × Vec2) (r1 r2 : ℝ) :
    (collide_circles a b r1 r2).1 = true ↔
      (a.2 - b.2).length_squared <
        (a.1.radius + b.1.radius) * (a.1.radius + b.1.radius) := by
  rw [collide_circles]
  by_cases h : (a.1.radius + b.1.radius) * (a.1.radius + b.1.radius) -
      (a.2 - b.2).length_squared ≤ 0
  · simp only [if_pos h]
    constructor
    · intro hc
      exact absurd hc (by simp)
    · intro hlt
      linarith
  · simp only [if_neg h]
    by_cases h0 : (a.2 - b.2).length_squared = 0
    · simp only [if_pos h0]
      constructor
      · intro _
        linarith
      · intro _
        trivial
    · simp only [if_neg h0]
      constructor
      · intro _
        linarith
      · intro _
        trivial

theorem collide_circles_nonpos_branch (a b : Circle × Vec2) (r1 r2 : ℝ)
    (h : (a.1.radius + b.1.radius) * (a.1.radius + b.1.radius) -
      (a.2 - b.2).length_squared ≤ 0) :
    collide_circles a b r1 r2 = (false, Vec2.zero) := by
  rw [collide_circles]
  simp only [if_pos h]

theorem collide_circles_coincident_branch (a b : Circle × Vec2) (r1 r2 : ℝ)
    (h : 0 < (a.1.radius + b.1.radius) * (a.1.radius + b.1.radius) -
      (a.2 - b.2).length_squared)
    (h0 : (a.2 - b.2).length_squared = 0) :
    collide_circles a b r1 r2 =
      (true, Real.sqrt ((a.1.radius + b.1.radius) * (a.1.radius + b.1.radius) -
        (a.2 - b.2).length_squared) • random_unit r1 r2) := by
  rw [collide_circles]
  simp only [if_neg (not_le.mpr h), if_pos h0]

theorem collide_circles_pos_branch (a b : Circle × Vec2) (r1 r2 : ℝ)
    (h : 0 < (a.1.radius + b.1.radius) * (a.1.radius + b.1.radius) -
      (a.2 - b.2).length_squared)
    (h0 : (a.2 - b.2).length_squared ≠ 0) :
    collide_circles a b r1 r2 =
      (true, Real.sqrt ((a.1.radius + b.1.radius) * (a.1.radius + b.1.radius) -
        (a.2 - b.2).length_squared) • (a.2 - b.2).normalize_or_zero) := by
  rw [collide_circles]
  simp only [if_neg (not_le.mpr h), if_neg h0]

theorem sqrt_eq_of_sq (s c : ℝ) (hc : 0 ≤ c) (h : s = c * c) :
    Real.sqrt s = c := by
  rw [h, Real.sqrt_mul_self hc]

theorem normalize_eval (vx vy c : ℝ) (hc : 0 < c) (h : vx * vx + vy * vy = c * c) :
    Vec2.normalize_or_zero ⟨vx, vy⟩ = ⟨vx / c, vy / c⟩ := by
  have hv : (⟨vx, vy⟩ : Vec2) ≠ Vec2.zero := by
    intro hz
    rw [Vec2.zero_def, Vec2.mk.injEq] at hz
    rw [hz.1, hz.2] at h
    nlinarith
  have hlen : Vec2.length ⟨vx, vy⟩ = c := by
    unfold Vec2.length Vec2.length_squared
    exact sqrt_eq_of_sq _ _ hc.le h
  rw [Vec2.normalize_or_zero, if_neg hv, hlen, Vec2.smul_def, Vec2.mk.injEq]
  constructor <;> ring

/-- Claim C5: `collide_circles` computes the overlap as the squared
radius sum minus the squared center distance, reports no collision with
a zero vector when the overlap is non-positive, and otherwise (distinct
centers) reports a collision whose push vector is the normalized center
difference scaled by the square root of the overlap. -/
theorem collide_circles_spec (a b : Circle × Vec2) (r1 r2 : ℝ) :
    ((a.1.radius + b.1.radius) ^ 2 - (a.2 - b.2).length_squared ≤ 0 →
      collide_circles a b r1 r2 = (false, Vec2.zero)) ∧
    (0 < (a.1.radius + b.1.radius) ^ 2 - (a.2 - b.2).length_squared →
      a.2 ≠ b.2 →
      collide_circles a b r1 r2 =
        (true, Real.sqrt ((a.1.radius + b.1.radius) ^ 2 -
          (a.2 - b.2).length_squared) • (a.2 - b.2).normalize_or_zero)) := by
  have hsq : (a.1.radius + b.1.radius) ^ 2 =
      (a.1.radius + b.1.radius) * (a.1.radius + b.1.radius) := sq (a.1.radius + b.1.radius) ▸ by ring
  constructor
  · intro h
    exact collide_circles_nonpos_branch a b r1 r2 (by rw [← hsq]; exact h)
  · intro h hne
    have h0 : (a.2 - b.2).length_squared ≠ 0 := by
      intro hz
      exact hne ((Vec2.sub_eq_zero_iff a.2 b.2).mp
        ((Vec2.length_squared_eq_zero _).mp hz))
    rw [collide_circles_pos_branch a b r1 r2 (by rw [← hsq]; exact h) h0, hsq]

/-- Witness for C5 at concrete inputs: radius-5 circles 10 apart do not
collide (overlap exactly 0), and circles of radii 2 and 3 whose centers
are 3 apart collide with the push given by the spec formula. -/
theorem collide_circles_spec_witness :
    (((Circle.new 5, (⟨0, 0⟩ : Vec2)).1.radius +
        (Circle.new 5, (⟨10, 0⟩ : Vec2)).1.radius) ^ 2 -
      ((⟨0, 0⟩ : Vec2) - ⟨10, 0⟩).length_squared ≤ 0 ∧
      collide_circles (Circle.new 5, ⟨0, 0⟩) (Circle.new 5, ⟨10, 0⟩) 0 0 =
        (false, Vec2.zero)) ∧
    (0 < ((Circle.new 2, (⟨3, 0⟩ : Vec2)).1.radius +
        (Circle.new 3, (⟨0, 0⟩ : Vec2)).1.radius) ^ 2 -
      ((⟨3, 0⟩ : Vec2) - ⟨0, 0⟩).length_squared ∧
      collide_circles (Circle.new 2, ⟨3, 0⟩) (Circle.new 3, ⟨0, 0⟩) 0 0 =
        (true, Real.sqrt (((Circle.new 2).radius + (Circle.new 3).radius) ^ 2 -
          ((⟨3, 0⟩ : Vec2) - ⟨0, 0⟩).length_squared) •
          ((⟨3, 0⟩ : Vec2) - ⟨0, 0⟩).normalize_or_zero)) := by
  have h1 : ((Circle.new 5, (⟨0, 0⟩ : Vec2)).1.radius +
      (Circle.new 5, (⟨10, 0⟩ : Vec2)).1.radius) ^ 2 -
      ((⟨0, 0⟩ : Vec2) - ⟨10, 0⟩).length_squared ≤ 0 := by
    simp [Circle.new, Vec2.length_squared]
    norm_num
  have h2 : 0 < ((Circle.new 2, (⟨3, 0⟩ : Vec2)).1.radius +
      (Circle.new 3, (⟨0, 0⟩ : Vec2)).1.radius) ^ 2 -
      ((⟨3, 0⟩ : Vec2) - ⟨0, 0⟩).length_squared := by
    simp [Circle.new, Vec2.length_squared]
    norm_num
  have h3 : (⟨3, 0⟩ : Vec2) ≠ (⟨0, 0⟩ : Vec2) := by
    rw [Ne, Vec2.mk.injEq]
    norm_num
  exact ⟨⟨h1, (collide_circles_spec (Circle.new 5, ⟨0, 0⟩) (Circle.new 5, ⟨10, 0⟩) 0 0).1 h1⟩,
    ⟨h2, (collide_circles_spec (Circle.new 2, ⟨3, 0⟩) (Circle.new 3, ⟨0, 0⟩) 0 0).2 h2 h3⟩⟩

theorem Vec2.sub_comm_neg (a b : Vec2) : b - a = -(a - b) := by
  cases a with
  | mk ax ay =>
    cases b with
    | mk bx by' =>
      simp only [Vec2.sub_def, Vec2.neg_def, Vec2.mk.injEq]
      constructor <;> ring

/-- Claim C6 (amended): the push vectors of `collide_circles (a, b)` and
`collide_circles (b, a)` are negations of each other whenever both calls
report a collision and the centers are distinct.  At coincident centers
each call independently draws a random direction, so no relation holds
there (see the counterexample). -/
theorem collide_push_antisymm (a b : Circle × Vec2) (r1 r2 s1 s2 : ℝ)
    (hne : a.2 ≠ b.2)
    (h1 : (collide_circles a b r1 r2).1 = true)
    (_h2 : (collide_circles b a s1 s2).1 = true) :
    (collide_circles a b r1 r2).2 = -((collide_circles b a s1 s2).2) := by
  have hov : (a.2 - b.2).length_squared <
      (a.1.radius + b.1.radius) * (a.1.radius + b.1.radius) :=
    (collide_circles_fst_iff a b r1 r2).mp h1
  have hd : (a.2 - b.2).length_squared ≠ 0 := by
    intro hz
    exact hne ((Vec2.sub_eq_zero_iff a.2 b.2).mp
      ((Vec2.length_squared_eq_zero _).mp hz))
  have hd2 : (b.2 - a.2).length_squared ≠ 0 := by
    rw [Vec2.sub_comm_neg, Vec2.length_squared_neg]
    exact hd
  have hov2 : 0 < (b.1.radius + a.1.radius) * (b.1.radius + a.1.radius) -
      (b.2 - a.2).length_squared := by
    rw [Vec2.sub_comm_neg, Vec2.length_squared_neg, add_comm b.1.radius a.1.radius]
    linarith
  rw [collide_circles_pos_branch a b r1 r2 (by linarith) hd,
    collide_circles_pos_branch b a s1 s2 hov2 hd2]
  show Real.sqrt _ • (a.2 - b.2).normalize_or_zero =
    -(Real.sqrt _ • (b.2 - a.2).normalize_or_zero)
  rw [Vec2.sub_comm_neg a.2 b.2, Vec2.length_squared_neg, Vec2.normalize_or_zero_neg,
    Vec2.smul_neg_vec, Vec2.neg_neg_vec, add_comm b.1.radius a.1.radius]

/-- Witness for C6 (amended) at concrete circles of radii 2 and 3 whose
centers are 3 apart: both orders collide and the pushes are negations. -/
theorem collide_push_antisymm_witness :
    ((⟨3, 0⟩ : Vec2) ≠ (⟨0, 0⟩ : Vec2)) ∧
    (collide_circles (Circle.new 2, ⟨3, 0⟩) (Circle.new 3, ⟨0, 0⟩) 0 0).1 = true ∧
    (collide_circles (Circle.new 3, ⟨0, 0⟩) (Circle.new 2, ⟨3, 0⟩) 0 0).1 = true ∧
    (collide_circles (Circle.new 2, ⟨3, 0⟩) (Circle.new 3, ⟨0, 0⟩) 0 0).2 =
      -((collide_circles (Circle.new 3, ⟨0, 0⟩) (Circle.new 2, ⟨3, 0⟩) 0 0).2) := by
  have hne : (⟨3, 0⟩ : Vec2) ≠ (⟨0, 0⟩ : Vec2) := by
    rw [Ne, Vec2.mk.injEq]
    norm_num
  have h1 : (collide_circles (Circle.new 2, ⟨3, 0⟩) (Circle.new 3, ⟨0, 0⟩) 0 0).1 = true := by
    rw [collide_circles_fst_iff]
    simp [Circle.new, Vec2.length_squared]
    norm_num
  have h2 : (collide_circles (Circle.new 3, ⟨0, 0⟩) (Circle.new 2, ⟨3, 0⟩) 0 0).1 = true := by
    rw [collide_circles_fst_iff]
    simp [Circle.new, Vec2.length_squared]
    norm_num
  exact ⟨hne, h1, h2,
    collide_push_antisymm (Circle.new 2, ⟨3, 0⟩) (Circle.new 3, ⟨0, 0⟩) 0 0 0 0 hne h1 h2⟩

theorem random_unit_eval_x : random_unit 1 (1/2) = ⟨1, 0⟩ := by
  rw [random_unit]
  norm_num
  rw [normalize_eval 1 0 1 (by norm_num) (by norm_num)]
  norm_num

theorem random_unit_eval_y : random_unit (1/2) 1 = ⟨0, 1⟩ := by
  rw [random_unit]
  norm_num
  rw [normalize_eval 0 1 1 (by norm_num) (by norm_num)]
  norm_num

/-- Counterexample to claim C6 as stated: for two coincident unit
circles both calls report a collision, but the pushes come from two
independent draws of the random source and need not be negations. -/
theorem collide_push_antisymm_counterexample :
    (collide_circles (Circle.new 1, ⟨0, 0⟩) (Circle.new 1, ⟨0, 0⟩) 1 (1/2)).1 = true ∧
    (collide_circles (Circle.new 1, ⟨0, 0⟩) (Circle.new 1, ⟨0, 0⟩) (1/2) 1).1 = true ∧
    (collide_circles (Circle.new 1, ⟨0, 0⟩) (Circle.new 1, ⟨0, 0⟩) 1 (1/2)).2 ≠
      -((collide_circles (Circle.new 1, ⟨0, 0⟩) (Circle.new 1, ⟨0, 0⟩) (1/2) 1).2) := by
  have hov : 0 < ((Circle.new 1, (⟨0, 0⟩ : Vec2)).1.radius +
      (Circle.new 1, (⟨0, 0⟩ : Vec2)).1.radius) *
      ((Circle.new 1, (⟨0, 0⟩ : Vec2)).1.radius +
        (Circle.new 1, (⟨0, 0⟩ : Vec2)).1.radius) -
      ((⟨0, 0⟩ : Vec2) - ⟨0, 0⟩).length_squared := by
    simp [Circle.new, Vec2.length_squared]
  have h0 : ((⟨0, 0⟩ : Vec2) - (⟨0, 0⟩ : Vec2)).length_squared = 0 := by
    simp [Vec2.length_squared]
  have e1 := collide_circles_coincident_branch
    (Circle.new 1, ⟨0, 0⟩) (Circle.new 1, ⟨0, 0⟩) 1 (1/2) hov h0
  have e2 := collide_circles_coincident_branch
    (Circle.new 1, ⟨0, 0⟩) (Circle.new 1, ⟨0, 0⟩) (1/2) 1 hov h0
  rw [e1, e2]
  refine ⟨rfl, rfl, ?_⟩
  have hs : Real.sqrt (((Circle.new 1, (⟨0, 0⟩ : Vec2)).1.radius +
      (Circle.new 1, (⟨0, 0⟩ : Vec2)).1.radius) *
      ((Circle.new 1, (⟨0, 0⟩ : Vec2)).1.radius +
        (Circle.new 1, (⟨0, 0⟩ : Vec2)).1.radius) -
      ((⟨0, 0⟩ : Vec2) - ⟨0, 0⟩).length_squared) = 2 := by
    apply sqrt_eq_of_sq _ 2 (by norm_num)
    simp [Circle.new, Vec2.length_squared]
    norm_num
  show Real.sqrt _ • random_unit 1 (1/2) ≠ -(Real.sqrt _ • random_unit (1/2) 1)
  rw [hs, random_unit_eval_x, random_unit_eval_y]
  simp only [Vec2.smul_def, Vec2.neg_def, Ne, Vec2.mk.injEq]
  norm_num

theorem random_unit_length (r1 r2 : ℝ) (h : random_unit r1 r2 ≠ Vec2.zero) :
    (random_unit r1 r2).length = 1 := by
  have hraw : (⟨r1 * 2 - 1, r2 * 2 - 1⟩ : Vec2) ≠ Vec2.zero := by
    intro hz
    apply h
    rw [random_unit, hz]
    exact (Vec2.normalize_or_zero_eq_zero _).mpr rfl
  rw [random_unit]
  exact Vec2.normalize_or_zero_length _ hraw

/-- Claim C2 (amended): for coincident centers and positive radii the
collision flag is always true; `random_unit` is non-zero for every pair
of raw samples except `(1/2, 1/2)`; and whenever `random_unit` is
non-zero the push vector is non-zero with magnitude the square root of
the overlap. -/
theorem collide_coincident_amended (a b : Circle × Vec2) (r1 r2 : ℝ)
    (hctr : a.2 = b.2) (hra : 0 < a.1.radius) (hrb : 0 < b.1.radius) :
    (collide_circles a b r1 r2).1 = true ∧
    (¬(r1 = 1/2 ∧ r2 = 1/2) → random_unit r1 r2 ≠ Vec2.zero) ∧
    (random_unit r1 r2 ≠ Vec2.zero →
      (collide_circles a b r1 r2).2 ≠ Vec2.zero ∧
      (collide_circles a b r1 r2).2.length =
        Real.sqrt ((a.1.radius + b.1.radius) * (a.1.radius + b.1.radius) -
          (a.2 - b.2).length_squared)) := by
  have h0 : (a.2 - b.2).length_squared = 0 := by
    rw [hctr, Vec2.sub_self_eq_zero]
    simp [Vec2.length_squared]
  have hov : 0 < (a.1.radius + b.1.radius) * (a.1.radius + b.1.radius) -
      (a.2 - b.2).length_squared := by
    rw [h0]
    nlinarith
  have hbr := collide_circles_coincident_branch a b r1 r2 hov h0
  have hsq : 0 < Real.sqrt ((a.1.radius + b.1.radius) * (a.1.radius + b.1.radius) -
      (a.2 - b.2).length_squared) := Real.sqrt_pos.mpr hov
  refine ⟨by rw [hbr], ?_, ?_⟩
  · intro hr hz
    rw [random_unit, Vec2.normalize_or_zero_eq_zero, Vec2.zero_def,
      Vec2.mk.injEq] at hz
    exact hr ⟨by linarith [hz.1], by linarith [hz.2]⟩
  · intro hu
    have hu1 : (random_unit r1 r2).length = 1 := random_unit_length r1 r2 hu
    constructor
    · intro hz
      rw [hbr] at hz
      have hz' : (Real.sqrt ((a.1.radius + b.1.radius) * (a.1.radius + b.1.radius) -
          (a.2 - b.2).length_squared) • random_unit r1 r2) = Vec2.zero := hz
      have hlen := congrArg Vec2.length hz'
      rw [Vec2.length_smul, hu1, mul_one, Vec2.length_zero, abs_of_pos hsq] at hlen
      linarith
    · rw [hbr]
      show (Real.sqrt _ • random_unit r1 r2).length = _
      rw [Vec2.length_smul, hu1, mul_one, abs_of_pos hsq]

/-- Witness for C2 (amended) at two coincident unit circles with raw
random samples `(1, 1/2)`: collision is true and the push is non-zero
with magnitude `sqrt 4`. -/
theorem collide_coincident_amended_witness :
    (collide_circles (Circle.new 1, ⟨0, 0⟩) (Circle.new 1, ⟨0, 0⟩) 1 (1/2)).1 = true ∧
    (collide_circles (Circle.new 1, ⟨0, 0⟩) (Circle.new 1, ⟨0, 0⟩) 1 (1/2)).2 ≠ Vec2.zero ∧
    (collide_circles (Circle.new 1, ⟨0, 0⟩) (Circle.new 1, ⟨0, 0⟩) 1 (1/2)).2.length =
      Real.sqrt (((Circle.new 1).radius + (Circle.new 1).radius) *
        ((Circle.new 1).radius + (Circle.new 1).radius) -
        ((⟨0, 0⟩ : Vec2) - ⟨0, 0⟩).length_squared) := by
  have h := collide_coincident_amended (Circle.new 1, ⟨0, 0⟩) (Circle.new 1, ⟨0, 0⟩)
    1 (1/2) rfl (by norm_num [Circle.new]) (by norm_num [Circle.new])
  have hu : random_unit 1 (1/2) ≠ Vec2.zero := h.2.1 (by norm_num)
  exact ⟨h.1, (h.2.2 hu).1, (h.2.2 hu).2⟩

/-- Counterexample to claim C2 as stated: when both raw random samples
are exactly `1/2`, `random_unit` returns the zero vector, so two
coincident unit circles report a collision whose push vector is zero. -/
theorem collide_coincident_counterexample :
    0 < (Circle.new 1).radius ∧
    (collide_circles (Circle.new 1, ⟨0, 0⟩) (Circle.new 1, ⟨0, 0⟩) (1/2) (1/2)).1 = true ∧
    (collide_circles (Circle.new 1, ⟨0, 0⟩) (Circle.new 1, ⟨0, 0⟩) (1/2) (1/2)).2 =
      Vec2.zero := by
  have hov : 0 < ((Circle.new 1, (⟨0, 0⟩ : Vec2)).1.radius +
      (Circle.new 1, (⟨0, 0⟩ : Vec2)).1.radius) *
      ((Circle.new 1, (⟨0, 0⟩ : Vec2)).1.radius +
        (Circle.new 1, (⟨0, 0⟩ : Vec2)).1.radius) -
      ((⟨0, 0⟩ : Vec2) - ⟨0, 0⟩).length_squared := by
    simp [Circle.new, Vec2.length_squared]
  have h0 : ((⟨0, 0⟩ : Vec2) - (⟨0, 0⟩ : Vec2)).length_squared = 0 := by
    simp [Vec2.length_squared]
  have hbr := collide_circles_coincident_branch
    (Circle.new 1, ⟨0, 0⟩) (Circle.new 1, ⟨0, 0⟩) (1/2) (1/2) hov h0
  have hru : random_unit (1/2) (1/2) = Vec2.zero := by
    rw [random_unit]
    norm_num
    exact (Vec2.normalize_or_zero_eq_zero _).mpr rfl
  refine ⟨by norm_num [Circle.new], by rw [hbr], ?_⟩
  rw [hbr]
  show Real.sqrt _ • random_unit (1/2) (1/2) = Vec2.zero
  rw [hru]
  simp

/-- `Position` component: `current` accumulates, `change` records the
delta of the most recent update. -/
structure Position where
  current : Vec2
  change : Vec2

/-- `Position::new`. -/
def Position.new (current : Vec2) : Position := ⟨current, Vec2.zero⟩

/-- `Position::apply`: accumulate into `current`, overwrite `change`. -/
def Position.apply (p : Position) (change : Vec2) : Position :=
  ⟨p.current + change, change⟩

/-- `Position::apply_add`: accumulate into both `current` and `change`. -/
def Position.apply_add (p : Position) (change : Vec2) : Position :=
  ⟨p.current + change, p.change + change⟩

/-- `Velocity` component. -/
structure Velocity where
  direction : Vec2
  speed : ℝ

/-- `Velocity::new`. -/
def Velocity.new (direction : Vec2) (speed : ℝ) : Velocity := ⟨direction, speed⟩

/-- `Velocity::is_zero`. -/
def Velocity.is_zero (v : Velocity) : Prop :=
  v.direction = Vec2.zero ∨ v.speed = 0

/-- `Velocity::change_for_seconds`. -/
noncomputable def Velocity.change_for_seconds (v : Velocity) (seconds : ℝ) : Vec2 :=
  if v.is_zero then Vec2.zero else (v.speed * seconds) • v.direction

/-- The loop body of the `movement` system, for one entity holding a
`Velocity` and a `Position`. -/
noncomputable def movement_step (dt : ℝ) (v : Velocity) (p : Position) : Position :=
  if v.is_zero then p else p.apply (v.change_for_seconds dt)

/-- The `movement` system over the whole query. -/
noncomputable def movement (dt : ℝ) (q : List (Velocity × Position)) :
    List (Velocity × Position) :=
  q.map fun vp => (vp.1, movement_step dt vp.1 vp.2)

/-- Claim C9: an entity with zero velocity keeps both position fields
unchanged; otherwise `current` is incremented by
`direction * speed * deltaTime` and `change` is overwritten with exactly
that delta. -/
theorem movement_step_spec (dt : ℝ) (v : Velocity) (p : Position) :
    (v.is_zero → movement_step dt v p = p) ∧
    (¬ v.is_zero →
      movement_step dt v p =
        ⟨p.current + (v.speed * dt) • v.direction,
          (v.speed * dt) • v.direction⟩) := by
  constructor
  · intro h
    rw [movement_step, if_pos h]
  · intro h
    rw [movement_step, if_neg h, Velocity.change_for_seconds, if_neg h,
      Position.apply]

/-- Witness for C9: a zero-direction entity is untouched, and an entity
with direction `(1,0)`, speed `2` over `dt = 3` moves by `(6,0)` with
`change` overwritten to `(6,0)`. -/
theorem movement_step_spec_witness :
    ((Velocity.new ⟨0, 0⟩ 5).is_zero ∧
      movement_step 3 (Velocity.new ⟨0, 0⟩ 5) ⟨⟨1, 2⟩, ⟨9, 9⟩⟩ = ⟨⟨1, 2⟩, ⟨9, 9⟩⟩) ∧
    (¬ (Velocity.new ⟨1, 0⟩ 2).is_zero ∧
      movement_step 3 (Velocity.new ⟨1, 0⟩ 2) ⟨⟨5, 5⟩, ⟨9, 9⟩⟩ = ⟨⟨11, 5⟩, ⟨6, 0⟩⟩) := by
  have hz : (Velocity.new ⟨0, 0⟩ 5).is_zero := Or.inl rfl
  have hnz : ¬ (Velocity.new ⟨1, 0⟩ 2).is_zero := by
    rw [Velocity.is_zero]
    push_neg
    constructor
    · rw [Velocity.new, Ne, Vec2.zero_def, Vec2.mk.injEq]
      norm_num
    · norm_num [Velocity.new]
  refine ⟨⟨hz, (movement_step_spec 3 _ _).1 hz⟩, hnz, ?_⟩
  rw [(movement_step_spec 3 (Velocity.new ⟨1, 0⟩ 2) ⟨⟨5, 5⟩, ⟨9, 9⟩⟩).2 hnz]
  rw [Velocity.new]
  simp only [Vec2.smul_def, Vec2.add_def, Position.mk.injEq, Vec2.mk.injEq]
  norm_num

/-- `MonsterStats` resource: the `u32` counters over `ℕ`. -/
structure MonsterStats where
  spawned : ℕ
  killed : ℕ

/-- `MonsterStats::clear`. -/
def MonsterStats.clear (_ : MonsterStats) : MonsterStats := ⟨0, 0⟩

/-- `MonsterStats::count`. -/
def MonsterStats.count (s : MonsterStats) : ℕ :=
  if s.spawned > s.killed then s.spawned - s.killed else 0

/-- The `#[derive(Default)]` initial value. -/
def MonsterStats.default : MonsterStats := ⟨0, 0⟩

/-- The only writes the source ever performs on the counters:
`spawned += 1` in `spawn_monster`, `killed += 1` in `blast_collision`,
and `clear` in `new_game`. -/
inductive StatEvent where
  | spawn
  | kill
  | clear

/-- One counter update. -/
def MonsterStats.step (s : MonsterStats) : StatEvent → MonsterStats
  | .spawn => ⟨s.spawned + 1, s.killed⟩
  | .kill => ⟨s.spawned, s.killed + 1⟩
  | .clear => s.clear

/-- The counters after a sequence of spawn/kill/clear events starting
from the default (zeroed) state. -/
def MonsterStats.run (evs : List StatEvent) : MonsterStats :=
  evs.foldl MonsterStats.step MonsterStats.default

/-- Claim C7: after any sequence of spawn and kill events the reported
count equals `max(spawned - killed, 0)`; the guarded `u32` subtraction
never underflows. -/
theorem monster_stats_count_spec (evs : List StatEvent) :
    ((MonsterStats.run evs).count : ℤ) =
      max (((MonsterStats.run evs).spawned : ℤ) -
        ((MonsterStats.run evs).killed : ℤ)) 0 := by
  have h : ∀ s : MonsterStats,
      (s.count : ℤ) = max ((s.spawned : ℤ) - (s.killed : ℤ)) 0 := by
    intro s
    rw [MonsterStats.count]
    by_cases hgt : s.spawned > s.killed
    · have hle : (s.killed : ℤ) ≤ (s.spawned : ℤ) := by
        exact_mod_cast le_of_lt hgt
      rw [if_pos hgt, Nat.cast_sub (le_of_lt hgt),
        max_eq_left (sub_nonneg.mpr hle)]
    · have hle : (s.spawned : ℤ) ≤ (s.killed : ℤ) := by
        exact_mod_cast not_lt.mp hgt
      rw [if_neg hgt, max_eq_right (sub_nonpos.mpr hle), Nat.cast_zero]
  exact h (MonsterStats.run evs)

/-- One (player, monster) overlap test as `damage_collision` performs
it.  The collision flag does not depend on the random samples (they
only enter the push vector), so fixed samples are passed. -/
noncomputable def collide_pair (pm : (Circle × Vec2) × (Circle × Vec2)) : Bool :=
  (collide_circles pm.1 pm.2 0 0).1

/-- The (player, monster) pairs in the order the nested loops of
`damage_collision` scan them. -/
def scan_pairs (players monsters : List (Circle × Vec2)) :
    List ((Circle × Vec2) × (Circle × Vec2)) :=
  players.flatMap fun p => monsters.map fun m => (p, m)

/-- The scanning loop of `damage_collision`: on the first colliding pair
it sends one `NewGameEvent` and returns from the whole system.  Result:
(signals sent, overlap tests run). -/
noncomputable def damage_scan :
    List ((Circle × Vec2) × (Circle × Vec2)) → ℕ × ℕ
  | [] => (0, 0)
  | pm :: rest =>
    if collide_pair pm then (1, 1)
    else ((damage_scan rest).1, (damage_scan rest).2 + 1)

/-- `damage_collision`: scans (player, monster) pairs, sending at most
one reset signal. -/
noncomputable def damage_collision (players monsters : List (Circle × Vec2)) :
    ℕ × ℕ :=
  damage_scan (scan_pairs players monsters)

theorem damage_scan_eq (l : List ((Circle × Vec2) × (Circle × Vec2))) :
    damage_scan l =
      (if l.any collide_pair then 1 else 0,
       if l.any collide_pair then l.findIdx collide_pair + 1 else l.length) := by
  induction l with
  | nil => simp [damage_scan]
  | cons pm rest ih =>
    rw [damage_scan]
    cases hc : collide_pair pm with
    | true =>
      simp [hc, List.any_cons, List.findIdx_cons]
    | false =>
      rw [if_neg (by simp [hc]), ih]
      by_cases ha : rest.any collide_pair
      · simp [hc, ha, List.any_cons, List.findIdx_cons]
      · simp [hc, ha, List.any_cons, List.findIdx_cons]

/-- Claim C8: `damage_collision` emits at most one reset signal per
tick; it emits exactly one iff some (player, monster) pair collides, and
it short-circuits: the tests performed stop right after the first
colliding pair in scan order (or cover all pairs when none collides). -/
theorem damage_collision_spec (players monsters : List (Circle × Vec2)) :
    (damage_collision players monsters).1 ≤ 1 ∧
    ((damage_collision players monsters).1 = 1 ↔
      ∃ p ∈ players, ∃ m ∈ monsters, (collide_circles p m 0 0).1 = true) ∧
    (damage_collision players monsters).2 =
      (if (scan_pairs players monsters).any collide_pair
       then (scan_pairs players monsters).findIdx collide_pair + 1
       else (scan_pairs players monsters).length) := by
  have hiff : (scan_pairs players monsters).any collide_pair = true ↔
      ∃ p ∈ players, ∃ m ∈ monsters, (collide_circles p m 0 0).1 = true := by
    rw [List.any_eq_true]
    constructor
    · rintro ⟨pm, hmem, hcol⟩
      rw [scan_pairs, List.mem_flatMap] at hmem
      obtain ⟨p, hp, hpm⟩ := hmem
      rw [List.mem_map] at hpm
      obtain ⟨m, hm, rfl⟩ := hpm
      exact ⟨p, hp, m, hm, hcol⟩
    · rintro ⟨p, hp, m, hm, hcol⟩
      refine ⟨(p, m), ?_, hcol⟩
      rw [scan_pairs, List.mem_flatMap]
      exact ⟨p, hp, List.mem_map.mpr ⟨m, hm, rfl⟩⟩
  have hfst : (damage_collision players monsters).1 =
      (if (scan_pairs players monsters).any collide_pair then 1 else 0) := by
    rw [damage_collision, damage_scan_eq]
  have hsnd : (damage_collision players monsters).2 =
      (if (scan_pairs players monsters).any collide_pair
       then (scan_pairs players monsters).findIdx collide_pair + 1
       else (scan_pairs players monsters).length) := by
    rw [damage_collision, damage_scan_eq]
  refine ⟨?_, ?_, hsnd⟩
  · rw [hfst]
    split_ifs <;> norm_num
  · rw [hfst]
    by_cases hc : (scan_pairs players monsters).any collide_pair = true
    · rw [if_pos hc]
      exact ⟨fun _ => hiff.mp hc, fun _ => rfl⟩
    · rw [if_neg hc]
      constructor
      · intro h01
        exact absurd h01 (by norm_num)
      · intro hex
        exact absurd (hiff.mpr hex) hc

/-- `blast_collision`: every (blast, adversary) pair is tested; on
collision the monster entity gets a despawn command and `killed` is
incremented.  Bevy applies the queued commands only after the system
finishes, so the monster query never shrinks during the scan.  Result:
new `killed` value and the queued despawn commands (monster indices, in
issue order). -/
noncomputable def blast_collision (blasts monsters : List (Circle × Vec2))
    (killed : ℕ) : ℕ × List ℕ :=
  blasts.foldl
    (fun acc blast =>
      monsters.enum.foldl
        (fun acc2 im =>
          if (collide_circles blast im.2 0 0).1 then (acc2.1 + 1, acc2.2 ++ [im.1])
          else acc2)
        acc)
    (killed, [])

/-- Claim C1 fails on the code: with two blasts of radius 50 at the
origin and one adversary of radius 10 at `(30, 0)`, both (blast,
monster) pairs collide, so `killed` is incremented twice and the same
monster receives two despawn commands, where the spec requires exactly
one. -/
theorem blast_collision_double_kill :
    blast_collision [(Circle.new 50, ⟨0, 0⟩), (Circle.new 50, ⟨0, 0⟩)]
      [(Circle.new 10, ⟨30, 0⟩)] 0 = (2, [0, 0]) := by
  have hc : (collide_circles (Circle.new 50, (⟨0, 0⟩ : Vec2))
      (Circle.new 10, (⟨30, 0⟩ : Vec2)) 0 0).1 = true := by
    rw [collide_circles_fst_iff]
    simp only [Circle.new, Vec2.sub_def, Vec2.length_squared]
    norm_num
  rw [blast_collision]
  rw [show ([(Circle.new 10, (⟨30, 0⟩ : Vec2))].enum) =
    [(0, (Circle.new 10, (⟨30, 0⟩ : Vec2)))] from rfl]
  simp only [List.foldl_cons, List.foldl_nil, hc, if_true]
  norm_num

/-- Tunable constants of the source. -/
def PLAYER_SPEED : ℝ := 100

def PLAYER_BODY_RADIUS : ℝ := 18

def MONSTER_SPEED : ℝ := 50

def MONSTER_BODY_RADIUS : ℝ := 10

def MONSTER_BODY_MASS : ℝ := 10

def COLLISION_DISPLACEMENT_FACTOR : ℝ := 0.2

/-- Transient per-tick collision scratch state on a `Body`. -/
structure Collision where
  displacement : Vec2
  is_firm : Bool

/-- `Collision::clear`. -/
def Collision.clear (_ : Collision) : Collision := ⟨Vec2.zero, false⟩

/-- `Body` component: shape, optional mass (absence = immovable), and
scratch collision state. -/
structure Body where
  circle : Circle
  mass : Option ℝ
  collision : Collision

/-- `Body::new`: collision state starts zeroed. -/
def Body.new (circle : Circle) (mass : Option ℝ) : Body :=
  ⟨circle, mass, ⟨Vec2.zero, false⟩⟩

/-- The loop body of the pairwise scan of `spread_collision`, acting on
two (body, position) entries; `r` holds the raw random samples the
overlap test would consume. -/
noncomputable def spread_pair (r : ℝ × ℝ) (a b : Body × Position) :
    (Body × Position) × (Body × Position) :=
  let res := collide_circles (a.1.circle, a.2.current) (b.1.circle, b.2.current)
    r.1 r.2
  if res.1 = false then (a, b)
  else if a.1.mass.isNone && b.1.mass.isNone then (a, b)
  else if a.1.mass.isNone || a.1.collision.is_firm then
    (a, ({ b.1 with collision := ⟨-res.2, true⟩ }, b.2))
  else if b.1.mass.isNone || b.1.collision.is_firm then
    (({ a.1 with collision := ⟨res.2, true⟩ }, a.2), b)
  else
    match a.1.mass, b.1.mass with
    | some a_mass, some b_mass =>
      let total_mass := a_mass + b_mass
      let a_factor := b_mass / total_mass
      let b_factor := a_mass / total_mass
      (({ a.1 with collision :=
          ⟨a.1.collision.displacement + a_factor • res.2,
            a.1.collision.is_firm⟩ }, a.2),
       ({ b.1 with collision :=
          ⟨b.1.collision.displacement - b_factor • res.2,
            b.1.collision.is_firm⟩ }, b.2))
    | _, _ => (a, b)

/-- Inner stage of `iter_combinations_mut`: pair the running head entry
`a` against every later entry in order, updating both sides in place.
`k` indexes the random stream `rnd`.  Returns the next stream index, the
final head entry, and the updated tail. -/
noncomputable def resolve_one (rnd : ℕ → ℝ × ℝ) (k : ℕ) (a : Body × Position) :
    List (Body × Position) → ℕ × (Body × Position) × List (Body × Position)
  | [] => (k, a, [])
  | b :: rest =>
    let ab := spread_pair (rnd k) a b
    let t := resolve_one rnd (k + 1) ab.1 rest
    (t.1, t.2.1, ab.2 :: t.2.2)

theorem resolve_one_length (rnd : ℕ → ℝ × ℝ) (k : ℕ) (a : Body × Position)
    (l : List (Body × Position)) :
    (resolve_one rnd k a l).2.2.length = l.length := by
  induction l generalizing k a with
  | nil => rfl
  | cons b rest ih =>
    rw [resolve_one]
    simp only [List.length_cons]
    rw [ih]

/-- `iter_combinations_mut` of the pairwise scan: visits every unordered
pair of entries exactly once, in index order. -/
noncomputable def resolve_all (rnd : ℕ → ℝ × ℝ) (k : ℕ) :
    List (Body × Position) → List (Body × Position)
  | [] => []
  | a :: rest =>
    let t := resolve_one rnd k a rest
    t.2.1 :: resolve_all rnd t.1 t.2.2
termination_by l => l.length
decreasing_by
  simp only [resolve_one_length]
  simp

/-- The apply-and-clear phase at the end of `spread_collision`. -/
noncomputable def apply_displacement (bp : Body × Position) : Body × Position :=
  let p := if bp.1.collision.displacement ≠ Vec2.zero
    then bp.2.apply_add (COLLISION_DISPLACEMENT_FACTOR • bp.1.collision.displacement)
    else bp.2
  ({ bp.1 with collision := bp.1.collision.clear }, p)

/-- `spread_collision`: the full pairwise scan followed by applying each
accumulated displacement (damped) and clearing the scratch state. -/
noncomputable def spread_collision (rnd : ℕ → ℝ × ℝ)
    (bodies : List (Body × Position)) : List (Body × Position) :=
  (resolve_all rnd 0 bodies).map apply_displacement

/-- Claim C4: for an overlapping pair of movable, non-firm bodies the
push `P` is split proportionally to the opposite mass — `a` gains
`P * massB/(massA+massB)`, `b` gains `-P * massA/(massA+massB)` — and
both shares are added to whatever displacement is already pending. -/
theorem spread_pair_mass_split (r : ℝ × ℝ) (a b : Body × Position)
    (ma mb : ℝ)
    (hma : a.1.mass = some ma) (hmb : b.1.mass = some mb)
    (hfa : a.1.collision.is_firm = false) (hfb : b.1.collision.is_firm = false)
    (hC : (collide_circles (a.1.circle, a.2.current) (b.1.circle, b.2.current)
      r.1 r.2).1 = true) :
    spread_pair r a b =
      (({ a.1 with collision :=
          ⟨a.1.collision.displacement + (mb / (ma + mb)) •
            (collide_circles (a.1.circle, a.2.current) (b.1.circle, b.2.current)
              r.1 r.2).2, false⟩ }, a.2),
       ({ b.1 with collision :=
          ⟨b.1.collision.displacement - (ma / (ma + mb)) •
            (collide_circles (a.1.circle, a.2.current) (b.1.circle, b.2.current)
              r.1 r.2).2, false⟩ }, b.2)) := by
  rw [spread_pair]
  simp only [hC, hma, hmb, hfa, hfb, Option.isNone_some, Bool.and_self,
    Bool.or_self, Bool.false_eq_true, if_false, Bool.true_eq_false]

theorem isNone_false_of_ne {α : Type} (x : Option α) (h : x ≠ none) :
    x.isNone = false := by
  cases x with
  | none => exact absurd rfl h
  | some v => rfl

theorem spread_pair_no_collision (r : ℝ × ℝ) (a b : Body × Position)
    (hC : (collide_circles (a.1.circle, a.2.current) (b.1.circle, b.2.current)
      r.1 r.2).1 = false) :
    spread_pair r a b = (a, b) := by
  rw [spread_pair]
  simp only [hC, eq_self_iff_true]
  exact if_pos trivial

theorem spread_pair_both_immovable (r : ℝ × ℝ) (a b : Body × Position)
    (ha : a.1.mass = none) (hb : b.1.mass = none) :
    spread_pair r a b = (a, b) := by
  rw [spread_pair]
  simp only [ha, hb, Option.isNone_none, Bool.and_self, if_true, ite_self]

theorem spread_pair_a_pins (r : ℝ × ℝ) (a b : Body × Position)
    (hC : (collide_circles (a.1.circle, a.2.current) (b.1.circle, b.2.current)
      r.1 r.2).1 = true)
    (hguard : (a.1.mass.isNone || a.1.collision.is_firm) = true)
    (hboth : (a.1.mass.isNone && b.1.mass.isNone) = false) :
    spread_pair r a b =
      (a, ({ b.1 with collision :=
        ⟨-(collide_circles (a.1.circle, a.2.current) (b.1.circle, b.2.current)
          r.1 r.2).2, true⟩ }, b.2)) := by
  rw [spread_pair]
  simp only [hC, hguard, hboth, Bool.true_eq_false, Bool.false_eq_true, if_false,
    if_true]

theorem spread_pair_b_pins (r : ℝ × ℝ) (a b : Body × Position)
    (hC : (collide_circles (a.1.circle, a.2.current) (b.1.circle, b.2.current)
      r.1 r.2).1 = true)
    (hafree : a.1.mass.isNone = false)
    (hafirm : a.1.collision.is_firm = false)
    (hguard : (b.1.mass.isNone || b.1.collision.is_firm) = true) :
    spread_pair r a b =
      (({ a.1 with collision :=
        ⟨(collide_circles (a.1.circle, a.2.current) (b.1.circle, b.2.current)
          r.1 r.2).2, true⟩ }, a.2), b) := by
  rw [spread_pair]
  simp only [hC, hafree, hafirm, hguard, Bool.true_eq_false, Bool.false_eq_true,
    Bool.and_eq_true, Bool.or_self, Bool.false_and, Bool.false_or, if_false,
    if_true]

theorem spread_pair_fst_of_immovable (r : ℝ × ℝ) (a b : Body × Position)
    (ha : a.1.mass = none) :
    (spread_pair r a b).1 = a := by
  by_cases hC : (collide_circles (a.1.circle, a.2.current)
      (b.1.circle, b.2.current) r.1 r.2).1 = true
  · cases hb : b.1.mass with
    | none => rw [spread_pair_both_immovable r a b ha hb]
    | some v =>
      rw [spread_pair_a_pins r a b hC (by simp [ha]) (by simp [hb])]
  · have hC' : (collide_circles (a.1.circle, a.2.current)
        (b.1.circle, b.2.current) r.1 r.2).1 = false :=
      Bool.eq_false_iff.mpr hC
    rw [spread_pair_no_collision r a b hC']

theorem collide_eval_ca (r1 r2 : ℝ) :
    collide_circles (Circle.new 3, ⟨0, 0⟩) (Circle.new 2, ⟨3, 0⟩) r1 r2 =
      (true, ⟨-4, 0⟩) := by
  rw [collide_circles_pos_branch (Circle.new 3, ⟨0, 0⟩) (Circle.new 2, ⟨3, 0⟩)
    r1 r2 (by norm_num [Circle.new, Vec2.length_squared])
    (by norm_num [Vec2.length_squared])]
  have hdiff : ((⟨0, 0⟩ : Vec2) - ⟨3, 0⟩) = (⟨-3, 0⟩ : Vec2) := by
    rw [Vec2.sub_def]
    norm_num
  rw [hdiff, normalize_eval (-3) 0 3 (by norm_num) (by norm_num)]
  have h16 : Real.sqrt 16 = 4 := sqrt_eq_of_sq 16 4 (by norm_num) (by norm_num)
  norm_num [Circle.new, Vec2.length_squared, h16, Prod.mk.injEq, Vec2.mk.injEq]

theorem collide_eval_cb (r1 r2 : ℝ) :
    collide_circles (Circle.new 3, ⟨0, 0⟩) (Circle.new 3, ⟨6, 0⟩) r1 r2 =
      (false, Vec2.zero) := by
  apply collide_circles_nonpos_branch
  norm_num [Circle.new, Vec2.length_squared]

theorem collide_eval_ab (r1 r2 : ℝ) :
    collide_circles (Circle.new 2, ⟨3, 0⟩) (Circle.new 3, ⟨6, 0⟩) r1 r2 =
      (true, ⟨-4, 0⟩) := by
  rw [collide_circles_pos_branch (Circle.new 2, ⟨3, 0⟩) (Circle.new 3, ⟨6, 0⟩)
    r1 r2 (by norm_num [Circle.new, Vec2.length_squared])
    (by norm_num [Vec2.length_squared])]
  have hdiff : ((⟨3, 0⟩ : Vec2) - ⟨6, 0⟩) = (⟨-3, 0⟩ : Vec2) := by
    rw [Vec2.sub_def]
    norm_num
  rw [hdiff, normalize_eval (-3) 0 3 (by norm_num) (by norm_num)]
  have h16 : Real.sqrt 16 = 4 := sqrt_eq_of_sq 16 4 (by norm_num) (by norm_num)
  norm_num [Circle.new, Vec2.length_squared, h16, Prod.mk.injEq, Vec2.mk.injEq]

/-- Witness for C4 at masses 10 and 30 and push `P = (-4, 0)`: the
mass-10 body gains `P * 30/40 = (-3, 0)` and the mass-30 body gains
`-P * 10/40 = (1, 0)`. -/
theorem spread_pair_mass_split_witness :
    spread_pair (0, 0)
      (Body.new (Circle.new 3) (some 10), Position.new ⟨0, 0⟩)
      (Body.new (Circle.new 2) (some 30), Position.new ⟨3, 0⟩) =
      ((⟨Circle.new 3, some 10, ⟨⟨-3, 0⟩, false⟩⟩, Position.new ⟨0, 0⟩),
       (⟨Circle.new 2, some 30, ⟨⟨1, 0⟩, false⟩⟩, Position.new ⟨3, 0⟩)) := by
  have hCfull : collide_circles
      ((Body.new (Circle.new 3) (some 10)).circle, (Position.new ⟨0, 0⟩).current)
      ((Body.new (Circle.new 2) (some 30)).circle, (Position.new ⟨3, 0⟩).current)
      (0 : ℝ) 0 = (true, ⟨-4, 0⟩) := by
    show collide_circles (Circle.new 3, ⟨0, 0⟩) (Circle.new 2, ⟨3, 0⟩) 0 0 = _
    exact collide_eval_ca 0 0
  have hC : (collide_circles
      ((Body.new (Circle.new 3) (some 10)).circle, (Position.new ⟨0, 0⟩).current)
      ((Body.new (Circle.new 2) (some 30)).circle, (Position.new ⟨3, 0⟩).current)
      (0 : ℝ) 0).1 = true := by
    rw [hCfull]
  have h := spread_pair_mass_split (0, 0)
    (Body.new (Circle.new 3) (some 10), Position.new ⟨0, 0⟩)
    (Body.new (Circle.new 2) (some 30), Position.new ⟨3, 0⟩)
    10 30 rfl rfl rfl rfl hC
  rw [h, hCfull]
  simp only [Body.new, Position.new]
  norm_num [Vec2.smul_def, Vec2.add_def, Vec2.sub_def, Prod.mk.injEq,
    Body.mk.injEq, Collision.mk.injEq, Vec2.mk.injEq]

/-- Claim C3 (amended): in a colliding pair, (i) two immovable bodies
are left unchanged; (ii) an immovable first body is never modified, and
an immovable second body is not modified as long as the first body is
movable and not yet firm; (iii) when the first body is immovable or firm
the second receives the full negated push (overwriting) and is marked
firm — even when the second body is itself immovable, which is the one
case violating the original claim; (iv) symmetrically, when the second
body is immovable or firm and the first is movable and not firm, the
first receives the full push and is marked firm. -/
theorem spread_pair_immovable_amended (r : ℝ × ℝ) (a b : Body × Position)
    (hC : (collide_circles (a.1.circle, a.2.current) (b.1.circle, b.2.current)
      r.1 r.2).1 = true) :
    (a.1.mass = none ∧ b.1.mass = none → spread_pair r a b = (a, b)) ∧
    (a.1.mass = none → (spread_pair r a b).1 = a) ∧
    (b.1.mass = none → a.1.mass ≠ none → a.1.collision.is_firm = false →
      (spread_pair r a b).2 = b) ∧
    ((a.1.mass = none ∨ a.1.collision.is_firm = true) →
      ¬(a.1.mass = none ∧ b.1.mass = none) →
      spread_pair r a b =
        (a, ({ b.1 with collision :=
          ⟨-(collide_circles (a.1.circle, a.2.current) (b.1.circle, b.2.current)
            r.1 r.2).2, true⟩ }, b.2))) ∧
    (a.1.mass ≠ none → a.1.collision.is_firm = false →
      (b.1.mass = none ∨ b.1.collision.is_firm = true) →
      spread_pair r a b =
        (({ a.1 with collision :=
          ⟨(collide_circles (a.1.circle, a.2.current) (b.1.circle, b.2.current)
            r.1 r.2).2, true⟩ }, a.2), b)) := by
  refine ⟨?_, ?_, ?_, ?_, ?_⟩
  · rintro ⟨ha, hb⟩
    exact spread_pair_both_immovable r a b ha hb
  · intro ha
    exact spread_pair_fst_of_immovable r a b ha
  · intro hb hane hafirm
    rw [spread_pair_b_pins r a b hC (isNone_false_of_ne _ hane) hafirm
      (by simp [hb])]
  · intro hguard hboth
    have hg : (a.1.mass.isNone || a.1.collision.is_firm) = true := by
      rcases hguard with h | h
      · simp [h]
      · simp [h]
    have hb : (a.1.mass.isNone && b.1.mass.isNone) = false := by
      rcases hma : a.1.mass with _ | va
      · have hbn : b.1.mass ≠ none := fun hbn => hboth ⟨hma, hbn⟩
        simp [isNone_false_of_ne _ hbn]
      · simp
    exact spread_pair_a_pins r a b hC hg hb
  · intro hane hafirm hguard
    have hg : (b.1.mass.isNone || b.1.collision.is_firm) = true := by
      rcases hguard with h | h
      · simp [h]
      · simp [h]
    exact spread_pair_b_pins r a b hC (isNone_false_of_ne _ hane) hafirm hg

/-- Witness for C3 (amended): an immovable radius-3 body at the origin
against a movable mass-10 body at `(3, 0)`: the immovable body is
untouched and the movable one receives the full negated push `(4, 0)`
and is marked firm. -/
theorem spread_pair_immovable_amended_witness :
    spread_pair (0, 0)
      (Body.new (Circle.new 3) none, Position.new ⟨0, 0⟩)
      (Body.new (Circle.new 2) (some 10), Position.new ⟨3, 0⟩) =
      ((Body.new (Circle.new 3) none, Position.new ⟨0, 0⟩),
       (⟨Circle.new 2, some 10, ⟨⟨4, 0⟩, true⟩⟩, Position.new ⟨3, 0⟩)) := by
  have hCfull : collide_circles
      ((Body.new (Circle.new 3) none).circle, (Position.new ⟨0, 0⟩).current)
      ((Body.new (Circle.new 2) (some 10)).circle, (Position.new ⟨3, 0⟩).current)
      (0 : ℝ) 0 = (true, ⟨-4, 0⟩) := by
    show collide_circles (Circle.new 3, ⟨0, 0⟩) (Circle.new 2, ⟨3, 0⟩) 0 0 = _
    exact collide_eval_ca 0 0
  have hC : (collide_circles
      ((Body.new (Circle.new 3) none).circle, (Position.new ⟨0, 0⟩).current)
      ((Body.new (Circle.new 2) (some 10)).circle, (Position.new ⟨3, 0⟩).current)
      (0 : ℝ) 0).1 = true := by
    rw [hCfull]
  have h := (spread_pair_immovable_amended (0, 0)
    (Body.new (Circle.new 3) none, Position.new ⟨0, 0⟩)
    (Body.new (Circle.new 2) (some 10), Position.new ⟨3, 0⟩) hC).2.2.2.1
    (Or.inl rfl) (by rintro ⟨_, hbn⟩; exact Option.noConfusion hbn)
  rw [h, hCfull]
  simp only [Body.new]
  norm_num [Vec2.neg_def, Prod.mk.injEq, Body.mk.injEq, Collision.mk.injEq,
    Vec2.mk.injEq]

/-- Counterexample to claim C3 as stated: three bodies in a row — an
immovable body at the origin, a movable mass-10 body at `(3, 0)` made
firm by the first pair, and an immovable body at `(6, 0)`.  The pair
(movable-firm, immovable) takes the firm branch, which never checks the
second body's mass, so the immovable third body accumulates the full
negated push and the apply phase moves it from `(6, 0)` to `(34/5, 0)`. -/
theorem spread_immovable_displaced_counterexample :
    (Body.new (Circle.new 3) none).mass = none ∧
    ((spread_collision (fun _ => ((0 : ℝ), (0 : ℝ)))
      [(Body.new (Circle.new 3) none, Position.new ⟨0, 0⟩),
       (Body.new (Circle.new 2) (some 10), Position.new ⟨3, 0⟩),
       (Body.new (Circle.new 3) none, Position.new ⟨6, 0⟩)]).map
      (fun bp => bp.2.current)).get? 2 = some ⟨34/5, 0⟩ ∧
    ((⟨34/5, 0⟩ : Vec2) ≠ ⟨6, 0⟩) := by
  have hCA : spread_pair ((0 : ℝ), (0 : ℝ))
      (Body.new (Circle.new 3) none, Position.new ⟨0, 0⟩)
      (Body.new (Circle.new 2) (some 10), Position.new ⟨3, 0⟩) =
      ((Body.new (Circle.new 3) none, Position.new ⟨0, 0⟩),
       (⟨Circle.new 2, some 10, ⟨⟨4, 0⟩, true⟩⟩, Position.new ⟨3, 0⟩)) := by
    have hCfull : collide_circles
        ((Body.new (Circle.new 3) none).circle, (Position.new ⟨0, 0⟩).current)
        ((Body.new (Circle.new 2) (some 10)).circle,
          (Position.new ⟨3, 0⟩).current) (0 : ℝ) 0 = (true, ⟨-4, 0⟩) := by
      show collide_circles (Circle.new 3, ⟨0, 0⟩) (Circle.new 2, ⟨3, 0⟩) 0 0 = _
      exact collide_eval_ca 0 0
    rw [spread_pair_a_pins _ _ _ (by rw [hCfull]) (by simp [Body.new])
      (by simp [Body.new]), hCfull]
    norm_num [Body.new, Prod.mk.injEq, Body.mk.injEq, Collision.mk.injEq,
      Vec2.mk.injEq, Vec2.neg_def]
  have hCB : spread_pair ((0 : ℝ), (0 : ℝ))
      (Body.new (Circle.new 3) none, Position.new ⟨0, 0⟩)
      (Body.new (Circle.new 3) none, Position.new ⟨6, 0⟩) =
      ((Body.new (Circle.new 3) none, Position.new ⟨0, 0⟩),
       (Body.new (Circle.new 3) none, Position.new ⟨6, 0⟩)) := by
    apply spread_pair_no_collision
    show (collide_circles (Circle.new 3, ⟨0, 0⟩) (Circle.new 3, ⟨6, 0⟩) 0 0).1 =
      false
    rw [collide_eval_cb]
  have hAB : spread_pair ((0 : ℝ), (0 : ℝ))
      (⟨Circle.new 2, some 10, ⟨⟨4, 0⟩, true⟩⟩, Position.new ⟨3, 0⟩)
      (Body.new (Circle.new 3) none, Position.new ⟨6, 0⟩) =
      ((⟨Circle.new 2, some 10, ⟨⟨4, 0⟩, true⟩⟩, Position.new ⟨3, 0⟩),
       (⟨Circle.new 3, none, ⟨⟨4, 0⟩, true⟩⟩, Position.new ⟨6, 0⟩)) := by
    have hCfull : collide_circles
        ((⟨Circle.new 2, some 10, ⟨⟨4, 0⟩, true⟩⟩ : Body).circle,
          (Position.new ⟨3, 0⟩).current)
        ((Body.new (Circle.new 3) none).circle, (Position.new ⟨6, 0⟩).current)
        (0 : ℝ) 0 = (true, ⟨-4, 0⟩) := by
      show collide_circles (Circle.new 2, ⟨3, 0⟩) (Circle.new 3, ⟨6, 0⟩) 0 0 = _
      exact collide_eval_ab 0 0
    rw [spread_pair_a_pins _ _ _ (by rw [hCfull]) (by simp)
      (by simp [Body.new]), hCfull]
    norm_num [Body.new, Prod.mk.injEq, Body.mk.injEq, Collision.mk.injEq,
      Vec2.mk.injEq, Vec2.neg_def]
  have hall : resolve_all (fun _ => ((0 : ℝ), (0 : ℝ))) 0
      [(Body.new (Circle.new 3) none, Position.new ⟨0, 0⟩),
       (Body.new (Circle.new 2) (some 10), Position.new ⟨3, 0⟩),
       (Body.new (Circle.new 3) none, Position.new ⟨6, 0⟩)] =
      [(Body.new (Circle.new 3) none, Position.new ⟨0, 0⟩),
       (⟨Circle.new 2, some 10, ⟨⟨4, 0⟩, true⟩⟩, Position.new ⟨3, 0⟩),
       (⟨Circle.new 3, none, ⟨⟨4, 0⟩, true⟩⟩, Position.new ⟨6, 0⟩)] := by
    rw [resolve_all]
    simp only [resolve_one, hCA, hCB]
    rw [resolve_all]
    simp only [resolve_one, hAB]
    rw [resolve_all]
    simp only [resolve_one]
    rw [resolve_all]
  rw [spread_collision, hall]
  refine ⟨rfl, ?_, ?_⟩
  · have happB : apply_displacement
        (⟨Circle.new 3, none, ⟨⟨4, 0⟩, true⟩⟩, Position.new ⟨6, 0⟩) =
        (⟨Circle.new 3, none, ⟨Vec2.zero, false⟩⟩,
         ⟨⟨34/5, 0⟩, ⟨4/5, 0⟩⟩) := by
      rw [apply_displacement]
      rw [if_pos (by
        rw [Ne, Vec2.zero_def, Vec2.mk.injEq]
        norm_num)]
      rw [Position.apply_add]
      norm_num [Position.new, Collision.clear, COLLISION_DISPLACEMENT_FACTOR,
        Prod.mk.injEq, Body.mk.injEq, Collision.mk.injEq, Position.mk.injEq,
        Vec2.mk.injEq]
    simp only [List.map_cons, List.map_nil, happB, List.get?]
  · rw [Ne, Vec2.mk.injEq]
    norm_num

theorem resolve_one_cons (rnd : ℕ → ℝ × ℝ) (k : ℕ) (a b : Body × Position)
    (rest : List (Body × Position)) :
    resolve_one rnd k a (b :: rest) =
      ((resolve_one rnd (k + 1) (spread_pair (rnd k) a b).1 rest).1,
       (resolve_one rnd (k + 1) (spread_pair (rnd k) a b).1 rest).2.1,
       (spread_pair (rnd k) a b).2 ::
         (resolve_one rnd (k + 1) (spread_pair (rnd k) a b).1 rest).2.2) := rfl

theorem resolve_all_nil (rnd : ℕ → ℝ × ℝ) (k : ℕ) :
    resolve_all rnd k [] = [] := by
  rw [resolve_all]

theorem resolve_all_cons (rnd : ℕ → ℝ × ℝ) (k : ℕ) (a : Body × Position)
    (rest : List (Body × Position)) :
    resolve_all rnd k (a :: rest) =
      (resolve_one rnd k a rest).2.1 ::
        resolve_all rnd (resolve_one rnd k a rest).1
          (resolve_one rnd k a rest).2.2 := by
  rw [resolve_all]

theorem resolve_one_immovable (rnd : ℕ → ℝ × ℝ) (a : Body × Position)
    (ha : a.1.mass = none) (l : List (Body × Position)) : ∀ (k : ℕ),
    (resolve_one rnd k a l).1 = k + l.length ∧
    (resolve_one rnd k a l).2.1 = a ∧
    ∀ i, (resolve_one rnd k a l).2.2.get? i =
      (l.get? i).map fun b => (spread_pair (rnd (k + i)) a b).2 := by
  induction l with
  | nil =>
    intro k
    exact ⟨rfl, rfl, fun i => rfl⟩
  | cons b rest ih =>
    intro k
    have hfst : (spread_pair (rnd k) a b).1 = a :=
      spread_pair_fst_of_immovable (rnd k) a b ha
    rw [resolve_one_cons, hfst]
    obtain ⟨ih1, ih2, ih3⟩ := ih (k + 1)
    refine ⟨?_, ih2, ?_⟩
    · rw [ih1, List.length_cons]
      omega
    · intro i
      cases i with
      | zero =>
        show some (spread_pair (rnd k) a b).2 = _
        rw [Nat.add_zero]
        rfl
      | succ i =>
        show (resolve_one rnd (k + 1) a rest).2.2.get? i = _
        rw [ih3 i, show k + 1 + i = k + (i + 1) from by omega]
        rfl

theorem spread_pair_firm_mono (r : ℝ × ℝ) (a b : Body × Position) :
    (a.1.collision.is_firm = true →
      (spread_pair r a b).1.1.collision.is_firm = true) ∧
    (b.1.collision.is_firm = true →
      (spread_pair r a b).2.1.collision.is_firm = true) := by
  rw [spread_pair]
  split_ifs with h1 h2 h3 h4
  · exact ⟨fun h => h, fun h => h⟩
  · exact ⟨fun h => h, fun h => h⟩
  · exact ⟨fun h => h, fun _ => rfl⟩
  · exact ⟨fun _ => rfl, fun h => h⟩
  · rcases hma : a.1.mass with _ | va
    · simp only [hma]
      exact ⟨fun h => h, fun h => h⟩
    · rcases hmb : b.1.mass with _ | vb
      · simp only [hma, hmb]
        exact ⟨fun h => h, fun h => h⟩
      · simp only [hma, hmb]
        exact ⟨fun h => h, fun h => h⟩

theorem resolve_one_firm_mono (rnd : ℕ → ℝ × ℝ) (l : List (Body × Position)) :
    ∀ (k : ℕ) (a : Body × Position),
    (a.1.collision.is_firm = true →
      (resolve_one rnd k a l).2.1.1.collision.is_firm = true) ∧
    (∀ i, ((l.get? i).map fun bp => bp.1.collision.is_firm) = some true →
      (((resolve_one rnd k a l).2.2.get? i).map
        fun bp => bp.1.collision.is_firm) = some true) := by
  induction l with
  | nil =>
    intro k a
    refine ⟨fun h => h, fun i hi => ?_⟩
    exact absurd hi (by simp)
  | cons b rest ih =>
    intro k a
    rw [resolve_one_cons]
    constructor
    · intro h
      exact (ih (k + 1) (spread_pair (rnd k) a b).1).1
        ((spread_pair_firm_mono (rnd k) a b).1 h)
    · intro i hi
      cases i with
      | zero =>
        have hb : b.1.collision.is_firm = true := by simpa using hi
        simpa using (spread_pair_firm_mono (rnd k) a b).2 hb
      | succ i =>
        exact (ih (k + 1) (spread_pair (rnd k) a b).1).2 _ hi

theorem resolve_all_firm_mono (rnd : ℕ → ℝ × ℝ) :
    ∀ (n : ℕ) (l : List (Body × Position)), l.length = n → ∀ (k i : ℕ),
    ((l.get? i).map fun bp => bp.1.collision.is_firm) = some true →
    (((resolve_all rnd k l).get? i).map fun bp => bp.1.collision.is_firm) =
      some true := by
  intro n
  induction n with
  | zero =>
    intro l hl k i hi
    rw [List.length_eq_zero] at hl
    subst hl
    exact absurd hi (by simp)
  | succ n ih =>
    intro l hl k i hi
    cases l with
    | nil => exact absurd hi (by simp)
    | cons a rest =>
      rw [resolve_all_cons]
      cases i with
      | zero =>
        have ha : a.1.collision.is_firm = true := by simpa using hi
        simpa using (resolve_one_firm_mono rnd rest k a).1 ha
      | succ i =>
        have hlen : (resolve_one rnd k a rest).2.2.length = n := by
          rw [resolve_one_length]
          simpa using hl
        exact ih (resolve_one rnd k a rest).2.2 hlen
          (resolve_one rnd k a rest).1 i
          ((resolve_one_firm_mono rnd rest k a).2 i hi)

/-- The controlled entity's body as `new_game` creates it: radius
`PLAYER_BODY_RADIUS`, no mass (immovable), zeroed collision state. -/
def new_game_player_body : Body := Body.new (Circle.new PLAYER_BODY_RADIUS) none

/-- The controlled entity's position as `new_game` creates it. -/
def new_game_player_position : Position := Position.new Vec2.zero

/-- The controlled entity's velocity as `new_game` creates it. -/
def new_game_player_velocity : Velocity := Velocity.new Vec2.zero PLAYER_SPEED

/-- Claim C10: `new_game` gives the controlled entity a massless
(immovable) body; in the physical-overlap pass — where the player,
created before every adversary, is the first body of each pair it is
in — the player's entry survives the whole pass completely unchanged
(no displacement is ever applied to it), while any adversary with a
mass that overlaps the player has its displacement overwritten with the
full negated push and is marked firm, a mark that persists to the end
of the pairwise scan. -/
theorem player_immovable_spec (pp : Position) (rest : List (Body × Position))
    (rnd : ℕ → ℝ × ℝ) :
    new_game_player_body.mass = none ∧
    (spread_collision rnd ((new_game_player_body, pp) :: rest)).get? 0 =
      some (new_game_player_body, pp) ∧
    (∀ i mi, rest.get? i = some mi → mi.1.mass ≠ none →
      (collide_circles (new_game_player_body.circle, pp.current)
        (mi.1.circle, mi.2.current) (rnd i).1 (rnd i).2).1 = true →
      ((resolve_one rnd 0 (new_game_player_body, pp) rest).2.2.get? i =
        some ({ mi.1 with collision :=
          ⟨-(collide_circles (new_game_player_body.circle, pp.current)
            (mi.1.circle, mi.2.current) (rnd i).1 (rnd i).2).2, true⟩ },
          mi.2)) ∧
      (((resolve_all rnd 0 ((new_game_player_body, pp) :: rest)).get?
        (i + 1)).map (fun bp => bp.1.collision.is_firm) = some true)) := by
  have hmass : new_game_player_body.mass = none := rfl
  obtain ⟨hk, hhead, hget⟩ :=
    resolve_one_immovable rnd (new_game_player_body, pp) hmass rest 0
  refine ⟨hmass, ?_, ?_⟩
  · rw [spread_collision, resolve_all_cons, hhead]
    have happ : apply_displacement (new_game_player_body, pp) =
        (new_game_player_body, pp) := by
      rw [apply_displacement]
      rw [if_neg (by simp [new_game_player_body, Body.new])]
      rfl
    simp only [List.map_cons, List.get?, happ]
  · intro i mi hmi hmmass hcol
    have hsp : spread_pair (rnd i) (new_game_player_body, pp) mi =
        ((new_game_player_body, pp),
         ({ mi.1 with collision :=
           ⟨-(collide_circles (new_game_player_body.circle, pp.current)
             (mi.1.circle, mi.2.current) (rnd i).1 (rnd i).2).2, true⟩ },
           mi.2)) := by
      rw [spread_pair_a_pins (rnd i) (new_game_player_body, pp) mi hcol
        (by simp [new_game_player_body, Body.new])
        (by simp [new_game_player_body, Body.new, isNone_false_of_ne _ hmmass])]
    constructor
    · rw [hget i, hmi, Nat.zero_add]
      simp only [Option.map_some']
      rw [hsp]
    · rw [resolve_all_cons]
      have hfirm_i : (((resolve_one rnd 0 (new_game_player_body, pp)
          rest).2.2.get? i).map (fun bp => bp.1.collision.is_firm)) =
          some true := by
        rw [hget i, hmi, Nat.zero_add]
        simp only [Option.map_some']
        rw [hsp]
      exact resolve_all_firm_mono rnd rest.length
        (resolve_one rnd 0 (new_game_player_body, pp) rest).2.2
        (resolve_one_length rnd 0 (new_game_player_body, pp) rest)
        (resolve_one rnd 0 (new_game_player_body, pp) rest).1 i hfirm_i

/-- Witness for C10: the player against a single mass-10 adversary of
radius 2 at `(3, 0)` — they overlap, the player entry is returned
unchanged by the whole pass, and the adversary ends the pairwise scan
marked firm. -/
theorem player_immovable_spec_witness :
    ((Body.new (Circle.new 2) (some 10)).mass ≠ none) ∧
    ((collide_circles (new_game_player_body.circle,
        (Position.new ⟨0, 0⟩).current)
      ((Body.new (Circle.new 2) (some 10)).circle,
        (Position.new (⟨3, 0⟩ : Vec2)).current) (0 : ℝ) 0).1 = true) ∧
    (((resolve_all (fun _ => ((0 : ℝ), (0 : ℝ))) 0
      [(new_game_player_body, Position.new ⟨0, 0⟩),
       (Body.new (Circle.new 2) (some 10), Position.new ⟨3, 0⟩)]).get? 1).map
      (fun bp => bp.1.collision.is_firm) = some true) ∧
    ((spread_collision (fun _ => ((0 : ℝ), (0 : ℝ)))
      [(new_game_player_body, Position.new ⟨0, 0⟩),
       (Body.new (Circle.new 2) (some 10), Position.new ⟨3, 0⟩)]).get? 0 =
      some (new_game_player_body, Position.new ⟨0, 0⟩)) := by
  have hmne : (Body.new (Circle.new 2) (some 10)).mass ≠ none := by
    simp [Body.new]
  have hcol : (collide_circles (new_game_player_body.circle,
      (Position.new ⟨0, 0⟩).current)
      ((Body.new (Circle.new 2) (some 10)).circle,
        (Position.new (⟨3, 0⟩ : Vec2)).current) (0 : ℝ) 0).1 = true := by
    rw [collide_circles_fst_iff]
    norm_num [new_game_player_body, Body.new, Circle.new, PLAYER_BODY_RADIUS,
      Position.new, Vec2.length_squared]
  have h := player_immovable_spec (Position.new ⟨0, 0⟩)
    [(Body.new (Circle.new 2) (some 10), Position.new ⟨3, 0⟩)]
    (fun _ => ((0 : ℝ), (0 : ℝ)))
  exact ⟨hmne, hcol, (h.2.2 0 _ rfl hmne hcol).2, h.2.1⟩

end Swarm
